import Mathlib

/-!
Verification of the dotfiles reconciliation engine (dfo).

The Go program is shallowly embedded: every filesystem call is answered by
an oracle (`FsOracle`) describing an arbitrary environment, and every
mutating call the program issues is logged as an `FsAction`.  Each Go
function becomes a Lean function from its inputs, the oracle and the
program state to a result, an updated state and the list of mutating
actions it performed, in the order it performed them.  Go's lexical path
functions (filepath.Clean, Join, Dir, IsAbs for Unix) are modelled at
character level so that they evaluate by kernel reduction.
-/

/-- Splits a character list on the path separator, keeping empty components
(mirrors splitting on every byte equal to the separator). -/
def splitOnSlash : List Char → List (List Char)
  | [] => [[]]
  | c :: rest =>
    let r := splitOnSlash rest
    if c = '/' then [] :: r
    else
      match r with
      | h :: t => (c :: h) :: t
      | [] => [[c]]

/-- Processing loop of Go filepath.Clean: components arrive left to right,
empty and dot components are dropped, a dotdot component pops the most
recent real component, is dropped at the root, and is kept when there is
nothing to pop in a relative path.  The accumulated stack is reversed. -/
def cleanStack (rooted : Bool) (stack : List (List Char)) : List (List Char) → List (List Char)
  | [] => stack
  | c :: rest =>
    if c = [] ∨ c = ['.'] then cleanStack rooted stack rest
    else if c = ['.', '.'] then
      match stack with
      | [] => if rooted then cleanStack rooted [] rest else cleanStack rooted [['.', '.']] rest
      | top :: stk =>
        if top = ['.', '.'] then cleanStack rooted (c :: top :: stk) rest
        else cleanStack rooted stk rest
    else cleanStack rooted (c :: stack) rest

/-- Joins components back with the separator (strings.Join with sep slash). -/
def joinComps : List (List Char) → List Char
  | [] => []
  | [c] => c
  | c :: rest => c ++ '/' :: joinComps rest

/-- Model of Go filepath.Clean for Unix paths: returns the shortest lexical
equivalent; the empty path cleans to a dot, a rooted path keeps its leading
separator. -/
def goClean (p : String) : String :=
  match p.data with
  | [] => "."
  | c :: cs =>
    let rooted := c = '/'
    let stack := cleanStack rooted [] (splitOnSlash (c :: cs))
    let body := joinComps stack.reverse
    if rooted then ⟨'/' :: body⟩
    else if body = [] then "." else ⟨body⟩

/-- Model of Go filepath.IsAbs for Unix: the path starts with the separator. -/
def isAbs (p : String) : Bool :=
  match p.data with
  | '/' :: _ => true
  | _ => false

/-- Model of Go filepath.Join on two elements: empty elements are skipped,
the remainder is joined with the separator and cleaned; all-empty input
yields the empty string. -/
def filepathJoin (a b : String) : String :=
  if a = "" then (if b = "" then "" else goClean b)
  else goClean (a ++ "/" ++ b)

/-- Characters of a path up to and including its last separator, or none
when the path has no separator. -/
def takeToLastSlash : List Char → Option (List Char)
  | [] => none
  | c :: rest =>
    match takeToLastSlash rest with
    | some d => some (c :: d)
    | none => if c = '/' then some [c] else none

/-- Model of Go filepath.Dir: everything up to the last separator, cleaned;
a path without separator has directory dot. -/
def filepathDir (p : String) : String :=
  match takeToLastSlash p.data with
  | none => "."
  | some d => goClean ⟨d⟩

/-- Go error values relevant to the program: nil is `Option.none`, the
conditions recognised by os.IsNotExist and os.IsExist are distinguished
constructors, everything else is an opaque coded error. -/
inductive FsError where
  | notExist
  | alreadyExists
  | permission
  | other (code : Nat)
deriving DecidableEq, Repr

/-- Model of os.IsNotExist over an optional error. -/
def goIsNotExist : Option FsError → Bool
  | some FsError.notExist => true
  | _ => false

/-- Model of os.IsExist over an optional error. -/
def goIsExist : Option FsError → Bool
  | some FsError.alreadyExists => true
  | _ => false

/-- Outcome of os.Lstat: file metadata (whether the entry is a symlink and
whether it is a directory) or an error. -/
inductive LstatResult where
  | ok (isSymlink : Bool) (isDir : Bool)
  | err (e : FsError)
deriving DecidableEq, Repr

/-- Outcome of os.Stat: whether the entry is a directory, or an error. -/
inductive StatResult where
  | ok (isDir : Bool)
  | err (e : FsError)
deriving DecidableEq, Repr

/-- Oracle answering every filesystem and clock query the program makes.
Mutating calls also return their outcome through the oracle, so one oracle
describes one arbitrary run environment, including every failure mode. -/
structure FsOracle where
  lstat : String → LstatResult
  readlink : String → Except FsError String
  stat : String → StatResult
  mkdir : String → Option FsError
  mkdirAll : String → Option FsError
  removeAll : String → Option FsError
  link : String → String → Option FsError
  symlink : String → String → Option FsError
  copyDir : String → String → Option FsError
  clock : Nat → String

/-- Mutating filesystem calls issued by the program, logged in order.
`removeAll` is os.RemoveAll, a recursive removal.  `copyDirOp` stands for
the whole recursive directory replication performed by copyDir, whose
internal structure is modelled separately by `copyDirTree`.  `examine` is
not a mutation: it marks the main loop inspecting one declared pair. -/
inductive FsAction where
  | mkdir (path : String)
  | mkdirAll (path : String)
  | removeAll (path : String)
  | link (oldname newname : String)
  | symlink (oldname newname : String)
  | copyDirOp (src dst : String)
  | examine (dst : String)
deriving DecidableEq, Repr

/-- dfoConfig of the program (config.go, latest variant). -/
structure DfoConfig where
  RepoDir : String
  HomeDir : String
  WorkDir : String
  GitRepo : String
  Noop : Bool
  Verbose : Bool
  Backup : Bool
  UpdateGit : Bool
deriving DecidableEq, Repr

/-- dotfileDef: one declared target (dst, relative to home) and source
(src, absolute or relative to the repository). -/
structure DotfileDef where
  src : String
  dst : String
deriving DecidableEq, Repr

/-- dfoState: configuration, the memoised backup directory name (empty
string when not yet computed, exactly as in Go), and the declared pairs. -/
structure DfoState where
  config : DfoConfig
  backupDir : String
  dotfiles : List DotfileDef
deriving DecidableEq, Repr

/-- Result of a Go function returning error: nil, a non-nil error, or a
runtime panic (nil pointer dereference). -/
inductive GoResult where
  | ok
  | err (e : FsError)
  | panicked
deriving DecidableEq, Repr

/-- Result of one modelled call: the Go return value, the state after the
call, the clock position after the call, and the mutations performed. -/
structure StepResult where
  res : GoResult
  dfo : DfoState
  time : Nat
  acts : List FsAction
deriving DecidableEq, Repr

/-- getBackupDirName (part_003): memoised; when the stored name is empty it
is computed from the current time as
WorkDir joined with backups/dfo_backup_ followed by the marshalled
timestamp, stored, and returned.  Reading the clock advances it. -/
def getBackupDirName (dfo : DfoState) (o : FsOracle) (t : Nat) : String × DfoState × Nat :=
  if dfo.backupDir ≠ "" then (dfo.backupDir, dfo, t)
  else
    let curDate := o.clock t
    let dirName := "backups/dfo_backup_" ++ curDate
    let bd := filepathJoin dfo.config.WorkDir dirName
    (bd, { dfo with backupDir := bd }, t + 1)

/-- createBackupDir (part_003): in noop mode returns nil immediately;
otherwise calls os.Mkdir on the backup directory (no parents) and treats
an already-exists error as success. -/
def createBackupDir (dfo : DfoState) (o : FsOracle) (backupDir : String) :
    GoResult × List FsAction :=
  if dfo.config.Noop then (GoResult.ok, [])
  else
    match o.mkdir backupDir with
    | none => (GoResult.ok, [FsAction.mkdir backupDir])
    | some e =>
      if goIsExist (some e) then (GoResult.ok, [FsAction.mkdir backupDir])
      else (GoResult.err e, [FsAction.mkdir backupDir])

/-- The absolute source string the inspector compares the existing symlink
destination against (part_003 fileNeedsUpdating): the declared source is
joined onto the repository directory unconditionally. -/
def inspectResolveSource (repoDir newSrc : String) : String :=
  filepathJoin repoDir newSrc

/-- The absolute source string replaceFile creates the symlink to
(part_003 replaceFile): an absolute declared source is used unchanged, a
relative one is joined onto the repository directory. -/
def replaceResolveSource (repoDir src : String) : String :=
  if isAbs src then src else filepathJoin repoDir src

/-- fileNeedsUpdating (part_003): Lstat the target under home; not-exist
means update needed; another Lstat error is returned; a symlink whose
destination equals the joined source needs nothing; everything else needs
an update. -/
def fileNeedsUpdating (o : FsOracle) (path newSrc : String) (config : DfoConfig) :
    Bool × Option FsError :=
  let targetPath := filepathJoin config.HomeDir path
  match o.lstat targetPath with
  | LstatResult.err e =>
    if goIsNotExist (some e) then (true, none) else (false, some e)
  | LstatResult.ok isSymlink _ =>
    if isSymlink then
      match o.readlink targetPath with
      | Except.error e => (false, some e)
      | Except.ok linkTarget =>
        if inspectResolveSource config.RepoDir newSrc = linkTarget then (false, none)
        else (true, none)
    else (true, none)

/-- fileNeedsUpdating of the earlier variant (part_002), which also reports
whether a backup is needed: not-exist means update without backup; a wrong
symlink or any non-symlink entry means update with backup. -/
def fileNeedsUpdatingV2 (o : FsOracle) (homeDir repoDir path newSrc : String) :
    Bool × Bool × Option FsError :=
  let targetPath := filepathJoin homeDir path
  match o.lstat targetPath with
  | LstatResult.err e =>
    if goIsNotExist (some e) then (true, false, none) else (false, false, some e)
  | LstatResult.ok isSymlink _ =>
    if isSymlink then
      match o.readlink targetPath with
      | Except.error e => (false, false, some e)
      | Except.ok linkTarget =>
        if inspectResolveSource repoDir newSrc = linkTarget then (false, false, none)
        else (true, true, none)
    else (true, true, none)

/-- backupFile (part_003): resolves source and backup paths (computing the
backup directory name twice through the memo), returns nil when the
content to preserve does not exist, ensures the backup directory, ensures
the mirrored parent directories unless in noop mode, returns nil in noop
mode, then replicates a directory via copyDir or hard-links a file.  A
stat error other than not-exist is not checked: the code continues and, if
it reaches the IsDir call outside noop mode, dereferences a nil FileInfo
and panics. -/
def backupFile (dfo : DfoState) (o : FsOracle) (t : Nat) (path : String) : StepResult :=
  let g1 := getBackupDirName dfo o t
  let srcPath := filepathJoin dfo.config.HomeDir path
  let targetBackupPath := filepathJoin g1.1 path
  let targetDir := filepathDir targetBackupPath
  match o.stat srcPath with
  | StatResult.err FsError.notExist => ⟨GoResult.ok, g1.2.1, g1.2.2, []⟩
  | statRes =>
    let g2 := getBackupDirName g1.2.1 o g1.2.2
    let c := createBackupDir g2.2.1 o g2.1
    if c.1 = GoResult.ok then
      if dfo.config.Noop then ⟨GoResult.ok, g2.2.1, g2.2.2, c.2⟩
      else
        match o.mkdirAll targetDir with
        | some e => ⟨GoResult.err e, g2.2.1, g2.2.2, c.2 ++ [FsAction.mkdirAll targetDir]⟩
        | none =>
          let acts := c.2 ++ [FsAction.mkdirAll targetDir]
          match statRes with
          | StatResult.err _ => ⟨GoResult.panicked, g2.2.1, g2.2.2, acts⟩
          | StatResult.ok isDir =>
            if isDir then
              match o.copyDir srcPath targetBackupPath with
              | none =>
                ⟨GoResult.ok, g2.2.1, g2.2.2,
                  acts ++ [FsAction.copyDirOp srcPath targetBackupPath]⟩
              | some e =>
                ⟨GoResult.err e, g2.2.1, g2.2.2,
                  acts ++ [FsAction.copyDirOp srcPath targetBackupPath]⟩
            else
              match o.link srcPath targetBackupPath with
              | none =>
                ⟨GoResult.ok, g2.2.1, g2.2.2,
                  acts ++ [FsAction.link srcPath targetBackupPath]⟩
              | some e =>
                ⟨GoResult.err e, g2.2.1, g2.2.2,
                  acts ++ [FsAction.link srcPath targetBackupPath]⟩
    else ⟨c.1, g2.2.1, g2.2.2, c.2⟩

/-- Continuation of replaceFile after the removal step was absorbed or
succeeded: ensure the parent directory of the target, resolve the source,
and create the symlink unless in noop mode. -/
def replaceTail (dfo1 : DfoState) (o : FsOracle) (t1 : Nat)
    (targetPath targetDir src : String) (acts : List FsAction) : StepResult :=
  match o.mkdirAll targetDir with
  | some e => ⟨GoResult.err e, dfo1, t1, acts ++ [FsAction.mkdirAll targetDir]⟩
  | none =>
    let absSrc := replaceResolveSource dfo1.config.RepoDir src
    if dfo1.config.Noop then ⟨GoResult.ok, dfo1, t1, acts ++ [FsAction.mkdirAll targetDir]⟩
    else
      match o.symlink absSrc targetPath with
      | some e =>
        ⟨GoResult.err e, dfo1, t1,
          acts ++ [FsAction.mkdirAll targetDir, FsAction.symlink absSrc targetPath]⟩
      | none =>
        ⟨GoResult.ok, dfo1, t1,
          acts ++ [FsAction.mkdirAll targetDir, FsAction.symlink absSrc targetPath]⟩

/-- replaceFile (part_003): backs the target up when backups are enabled
and propagates any failure, then outside noop mode removes the existing
entry recursively (not-exist absorbed, other errors returned), ensures the
parent directory, resolves the source (absolute kept, relative joined onto
the repository), and creates the symlink; in noop mode every mutating step
is skipped and nil is returned. -/
def replaceFile (dfo : DfoState) (o : FsOracle) (t : Nat) (target src : String) : StepResult :=
  let targetPath := filepathJoin dfo.config.HomeDir target
  let b : StepResult :=
    if dfo.config.Backup then backupFile dfo o t target
    else ⟨GoResult.ok, dfo, t, []⟩
  if b.res = GoResult.ok then
    let targetDir := filepathDir targetPath
    if dfo.config.Noop then ⟨GoResult.ok, b.dfo, b.time, b.acts⟩
    else
      match o.removeAll targetPath with
      | some FsError.notExist => replaceTail b.dfo o b.time targetPath targetDir src
          (b.acts ++ [FsAction.removeAll targetPath])
      | some e => ⟨GoResult.err e, b.dfo, b.time, b.acts ++ [FsAction.removeAll targetPath]⟩
      | none => replaceTail b.dfo o b.time targetPath targetDir src
          (b.acts ++ [FsAction.removeAll targetPath])
  else ⟨b.res, b.dfo, b.time, b.acts⟩

/-- Link state of a target as the spec describes it, computed from the
same filesystem queries the inspector makes.  Error outcomes of those
queries fall outside the four states. -/
inductive LinkState where
  | Absent
  | CorrectSymlink
  | WrongSymlink
  | OtherEntry
deriving DecidableEq, Repr

/-- Classifies the entry at the target resolved under home, using the same
comparison string as the inspector; none when a metadata query errors. -/
def linkState (o : FsOracle) (homeDir repoDir path newSrc : String) : Option LinkState :=
  let targetPath := filepathJoin homeDir path
  match o.lstat targetPath with
  | LstatResult.err FsError.notExist => some LinkState.Absent
  | LstatResult.err _ => none
  | LstatResult.ok isSymlink _ =>
    if isSymlink then
      match o.readlink targetPath with
      | Except.error _ => none
      | Except.ok dest =>
        if inspectResolveSource repoDir newSrc = dest then some LinkState.CorrectSymlink
        else some LinkState.WrongSymlink
    else some LinkState.OtherEntry

/-- Modelled from the spec: the decision rule's update column.  Absent,
WrongSymlink and OtherEntry need replacement; CorrectSymlink needs
nothing. -/
def specNeedsUpdate : LinkState → Bool
  | LinkState.Absent => true
  | LinkState.CorrectSymlink => false
  | LinkState.WrongSymlink => true
  | LinkState.OtherEntry => true

/-- Modelled from the spec: the decision rule's backup column.  Only
WrongSymlink and OtherEntry need a backup. -/
def specNeedsBackup : LinkState → Bool
  | LinkState.Absent => false
  | LinkState.CorrectSymlink => false
  | LinkState.WrongSymlink => true
  | LinkState.OtherEntry => true

/-- Filesystem subtree: a regular file is identified by its inode (a hard
link preserves it, a byte copy would allocate a fresh one), a directory
carries its permission bits and named entries. -/
inductive FsTree where
  | file (inode : Nat)
  | dir (perm : Nat) (entries : List (String × FsTree))

mutual

/-- copyDir (part_003): creates the destination directory with the source
directory's permission bits, then walks the entries: a directory entry is
replicated recursively, any other entry becomes a hard link to the
original (os.Link, same inode).  The function returns the tree created at
the destination; backupFile only invokes it on directories. -/
def copyDirTree : FsTree → FsTree
  | FsTree.file i => FsTree.file i
  | FsTree.dir p es => FsTree.dir p (copyEntries es)

/-- Entry loop of copyDir: hard-link files, recurse into directories. -/
def copyEntries : List (String × FsTree) → List (String × FsTree)
  | [] => []
  | (n, FsTree.file i) :: rest => (n, FsTree.file i) :: copyEntries rest
  | (n, FsTree.dir p es) :: rest => (n, copyDirTree (FsTree.dir p es)) :: copyEntries rest

end

/-- Follows a component path down a tree. -/
def lookupPath : FsTree → List String → Option FsTree
  | t, [] => some t
  | FsTree.file _, _ :: _ => none
  | FsTree.dir _ es, n :: rest =>
    match es.find? (fun e => e.1 = n) with
    | some e => lookupPath e.2 rest
    | none => none

/-- Outcome of one whole run of the main loop. -/
inductive RunOutcome where
  | finished
  | fatal (e : FsError)
  | panicked
deriving DecidableEq, Repr

/-- Result of running the main loop: outcome, final state, clock position,
and the ordered log of inspections and mutations. -/
structure RunResult where
  outcome : RunOutcome
  dfo : DfoState
  time : Nat
  acts : List FsAction
deriving DecidableEq, Repr

/-- Main loop of part_003: for each declared pair in list order, inspect
it (logged as an examine event); a non-nil inspection error is fatal; a
pair needing no update is skipped; otherwise replaceFile runs and its
non-nil error is fatal.  A fatal error aborts the remaining pairs. -/
def processDotfiles (o : FsOracle) : DfoState → Nat → List DotfileDef → RunResult
  | dfo, t, [] => ⟨RunOutcome.finished, dfo, t, []⟩
  | dfo, t, f :: rest =>
    let u := fileNeedsUpdating o f.dst f.src dfo.config
    match u.2 with
    | some e => ⟨RunOutcome.fatal e, dfo, t, [FsAction.examine f.dst]⟩
    | none =>
      if u.1 then
        let s := replaceFile dfo o t f.dst f.src
        match s.res with
        | GoResult.ok =>
          let r := processDotfiles o s.dfo s.time rest
          ⟨r.outcome, r.dfo, r.time, FsAction.examine f.dst :: s.acts ++ r.acts⟩
        | GoResult.err e =>
          ⟨RunOutcome.fatal e, s.dfo, s.time, FsAction.examine f.dst :: s.acts⟩
        | GoResult.panicked =>
          ⟨RunOutcome.panicked, s.dfo, s.time, FsAction.examine f.dst :: s.acts⟩
      else
        let r := processDotfiles o dfo t rest
        ⟨r.outcome, r.dfo, r.time, FsAction.examine f.dst :: r.acts⟩

/-- Tail of main in part_003: the startup debug log evaluates
getBackupDirName (memoising the name from the clock at run start), then
the loop processes the declared pairs. -/
def runMain (dfo : DfoState) (o : FsOracle) : RunResult :=
  let g := getBackupDirName dfo o 0
  processDotfiles o g.2.1 g.2.2 g.2.1.dotfiles

/-- Targets inspected by a run, in order, extracted from its log. -/
def examinedTargets : List FsAction → List String
  | [] => []
  | FsAction.examine d :: rest => d :: examinedTargets rest
  | _ :: rest => examinedTargets rest

/-- Loading loop of main in part_003: one range over the yaml map appends
a dotfileDef per entry, in the order the iteration yields them. -/
def loadDotfiles (enum : List (String × String)) : List DotfileDef :=
  enum.map (fun p => { dst := p.1, src := p.2 })

/-- A Go map range may yield the entries of the map in any order: an
iteration is valid exactly when it is a permutation of the entries. -/
def validMapIteration (m enum : List (String × String)) : Prop :=
  List.Perm enum m

/-- Lines 222 to 229 of part_003 (initWorkDir before the git handling):
MkdirAll of the work directory, then MkdirAll of its backups
subdirectory; the first failure is returned. -/
def initWorkDirMkdirs (dfo : DfoState) (o : FsOracle) : GoResult × List FsAction :=
  match o.mkdirAll dfo.config.WorkDir with
  | some e => (GoResult.err e, [FsAction.mkdirAll dfo.config.WorkDir])
  | none =>
    let backupDir := filepathJoin dfo.config.WorkDir "backups"
    match o.mkdirAll backupDir with
    | some e =>
      (GoResult.err e, [FsAction.mkdirAll dfo.config.WorkDir, FsAction.mkdirAll backupDir])
    | none =>
      (GoResult.ok, [FsAction.mkdirAll dfo.config.WorkDir, FsAction.mkdirAll backupDir])

/-- Benign environment: nothing exists, every mutation succeeds, the clock
reads T0 first and T1 afterwards. -/
def baseOracle : FsOracle where
  lstat := fun _ => LstatResult.err FsError.notExist
  readlink := fun _ => Except.error (FsError.other 0)
  stat := fun _ => StatResult.err FsError.notExist
  mkdir := fun _ => none
  mkdirAll := fun _ => none
  removeAll := fun _ => none
  link := fun _ _ => none
  symlink := fun _ _ => none
  copyDir := fun _ _ => none
  clock := fun n => if n = 0 then "T0" else "T1"

/-- Configuration with short concrete directories, backups on, noop off. -/
def cfgRun : DfoConfig where
  RepoDir := "/r"
  HomeDir := "/h"
  WorkDir := "/w"
  GitRepo := ""
  Noop := false
  Verbose := false
  Backup := true
  UpdateGit := true

/-- cfgRun with the dry-run flag set. -/
def cfgNoop : DfoConfig :=
  { cfgRun with Noop := true }

/-- Fresh state in dry-run mode with backups enabled. -/
def dfoNoop : DfoState :=
  ⟨cfgNoop, "", []⟩

/-- Fresh state with backups enabled and dry-run off. -/
def dfoRun : DfoState :=
  ⟨cfgRun, "", []⟩

/-- Environment for the resolution-mismatch input: the target under home
is a symlink that already points at the absolute declared source. -/
def oAbsLink : FsOracle :=
  { baseOracle with
    lstat := fun p => if p = "/h/.bashrc" then LstatResult.ok true false
      else LstatResult.err FsError.notExist
    readlink := fun p => if p = "/h/.bashrc" then Except.ok "/etc/skel/.bashrc"
      else Except.error (FsError.other 0) }

/-- Environment where the target exists as a regular file and every
mutation succeeds: a run over it needs an update with a backup. -/
def oPlainFile : FsOracle :=
  { baseOracle with
    lstat := fun p => if p = "/h/f" then LstatResult.ok false false
      else LstatResult.err FsError.notExist
    stat := fun p => if p = "/h/f" then StatResult.ok false
      else StatResult.err FsError.notExist }

/-- State for the run over oPlainFile: one declared pair, target f,
source s. -/
def dfoOneFile : DfoState :=
  ⟨cfgRun, "", [⟨"s", "f"⟩]⟩

/-- Environment whose stat fails with a permission error everywhere. -/
def oStatPerm : FsOracle :=
  { baseOracle with stat := fun _ => StatResult.err FsError.permission }

/-- Environment whose mkdir fails with not-exist (missing parent). -/
def oMkdirNoParent : FsOracle :=
  { baseOracle with mkdir := fun _ => some FsError.notExist }

/-- Environment whose removeAll fails with a permission error. -/
def oRemovePerm : FsOracle :=
  { baseOracle with removeAll := fun _ => some FsError.permission }

/-- Declared mapping in document order: target a then target b. -/
def yamlPairs : List (String × String) :=
  [("a", "s1"), ("b", "s2")]

/-- A legal Go map iteration of yamlPairs that yields b before a. -/
def yamlPairsSwapped : List (String × String) :=
  [("b", "s2"), ("a", "s1")]

/-- State processing the swapped iteration in dry-run mode. -/
def dfoSwapped : DfoState :=
  ⟨cfgNoop, "", loadDotfiles yamlPairsSwapped⟩

/-- Environment where the target vimrc under home is already the correct
symlink into the repository. -/
def oCorrectLink : FsOracle :=
  { baseOracle with
    lstat := fun p => if p = "/h/.vimrc" then LstatResult.ok true false
      else LstatResult.err FsError.notExist
    readlink := fun p => if p = "/h/.vimrc" then Except.ok "/r/vimrc"
      else Except.error (FsError.other 0) }

theorem string_mk_ne_empty (l : List Char) (h : l ≠ []) : String.mk l ≠ "" := by
  intro hc
  exact h (congrArg String.data hc)

theorem goClean_ne_empty (s : String) : goClean s ≠ "" := by
  unfold goClean
  cases hd : s.data with
  | nil => decide
  | cons c cs =>
    dsimp only
    split
    · exact string_mk_ne_empty _ (by simp)
    · split
      · decide
      · exact string_mk_ne_empty _ (by assumption)

theorem filepathJoin_ne_empty (a b : String) (hb : b ≠ "") : filepathJoin a b ≠ "" := by
  unfold filepathJoin
  split
  · exact goClean_ne_empty b
  · exact goClean_ne_empty _

/-- C2: for every target path and intended source, the inspection verdict
of both fileNeedsUpdating variants follows the decision rule: an absent
entry needs an update and no backup; a symlink whose destination
string-equals the resolved source needs nothing; a symlink to anything
else or any non-symlink entry needs an update, and the variant reporting
it also requires a backup.  The resolved source is the string the
inspector resolves, the declared source joined onto the repository
directory. -/
theorem c2_decision_rule (o : FsOracle) (cfg : DfoConfig) (path newSrc : String)
    (s : LinkState) (h : linkState o cfg.HomeDir cfg.RepoDir path newSrc = some s) :
    fileNeedsUpdating o path newSrc cfg = (specNeedsUpdate s, none) ∧
    fileNeedsUpdatingV2 o cfg.HomeDir cfg.RepoDir path newSrc =
      (specNeedsUpdate s, specNeedsBackup s, none) := by
  simp only [linkState] at h
  simp only [fileNeedsUpdating, fileNeedsUpdatingV2]
  cases hl : o.lstat (filepathJoin cfg.HomeDir path) with
  | err e =>
    simp only [hl] at h ⊢
    cases e with
    | notExist => cases h; simp [goIsNotExist, specNeedsUpdate, specNeedsBackup]
    | alreadyExists => simp at h
    | permission => simp at h
    | other code => simp at h
  | ok isSym isDir =>
    simp only [hl] at h ⊢
    cases isSym with
    | false =>
      simp only [Bool.false_eq_true, if_false] at h ⊢
      cases h
      simp [specNeedsUpdate, specNeedsBackup]
    | true =>
      simp only [if_true] at h ⊢
      cases hr : o.readlink (filepathJoin cfg.HomeDir path) with
      | error e => simp [hr] at h
      | ok dest =>
        simp only [hr] at h ⊢
        by_cases he : inspectResolveSource cfg.RepoDir newSrc = dest
        · rw [if_pos he] at h ⊢
          cases h
          simp [he, specNeedsUpdate, specNeedsBackup]
        · rw [if_neg he] at h ⊢
          cases h
          simp [he, specNeedsUpdate, specNeedsBackup]

theorem getBackupDirName_config (dfo : DfoState) (o : FsOracle) (t : Nat) :
    ((getBackupDirName dfo o t).2.1).config = dfo.config := by
  unfold getBackupDirName
  split <;> rfl

theorem createBackupDir_noop (dfo : DfoState) (o : FsOracle) (bd : String)
    (h : dfo.config.Noop = true) : createBackupDir dfo o bd = (GoResult.ok, []) := by
  simp [createBackupDir, h]

theorem backupFile_noop (dfo : DfoState) (o : FsOracle) (t : Nat) (path : String)
    (h : dfo.config.Noop = true) :
    (backupFile dfo o t path).res = GoResult.ok ∧ (backupFile dfo o t path).acts = [] := by
  have hc2 : ((getBackupDirName ((getBackupDirName dfo o t).2.1) o
      ((getBackupDirName dfo o t).2.2)).2.1).config.Noop = true := by
    rw [getBackupDirName_config, getBackupDirName_config, h]
  simp only [backupFile]
  cases hs : o.stat (filepathJoin dfo.config.HomeDir path) with
  | err e =>
    cases e with
    | notExist => simp [hs]
    | alreadyExists => simp [hs, createBackupDir_noop _ o _ hc2, h]
    | permission => simp [hs, createBackupDir_noop _ o _ hc2, h]
    | other code => simp [hs, createBackupDir_noop _ o _ hc2, h]
  | ok isDir => simp [hs, createBackupDir_noop _ o _ hc2, h]

theorem replaceFile_noop (dfo : DfoState) (o : FsOracle) (t : Nat) (target src : String)
    (h : dfo.config.Noop = true) :
    (replaceFile dfo o t target src).res = GoResult.ok ∧
    (replaceFile dfo o t target src).acts = [] := by
  simp only [replaceFile]
  cases hB : dfo.config.Backup with
  | false => simp [hB, h]
  | true =>
    have hb := backupFile_noop dfo o t target h
    simp [hB, h, hb.1, hb.2]

/-- Witness for C2: a target that is already the correct symlink into the
repository is classified CorrectSymlink and needs neither update nor
backup. -/
theorem c2_decision_rule_witness :
    linkState oCorrectLink cfgRun.HomeDir cfgRun.RepoDir ".vimrc" "vimrc" =
      some LinkState.CorrectSymlink ∧
    fileNeedsUpdating oCorrectLink ".vimrc" "vimrc" cfgRun =
      (specNeedsUpdate LinkState.CorrectSymlink, none) ∧
    fileNeedsUpdatingV2 oCorrectLink cfgRun.HomeDir cfgRun.RepoDir ".vimrc" "vimrc" =
      (specNeedsUpdate LinkState.CorrectSymlink, specNeedsBackup LinkState.CorrectSymlink,
        none) :=
  ⟨by decide,
    (c2_decision_rule oCorrectLink cfgRun ".vimrc" "vimrc" LinkState.CorrectSymlink
      (by decide)).1,
    (c2_decision_rule oCorrectLink cfgRun ".vimrc" "vimrc" LinkState.CorrectSymlink
      (by decide)).2⟩

/-- C1: dry-run performs no filesystem mutation.  For every state (hence
every backup-flag value), every environment (hence every link state of
the target) and every declared pair, when the noop flag is set the action
log of replaceFile, backupFile and createBackupDir is empty. -/
theorem c1_dry_run_never_mutates (dfo : DfoState) (o : FsOracle) (t : Nat)
    (target src path bd : String) (h : dfo.config.Noop = true) :
    (replaceFile dfo o t target src).acts = [] ∧
    (backupFile dfo o t path).acts = [] ∧
    (createBackupDir dfo o bd).2 = [] :=
  ⟨(replaceFile_noop dfo o t target src h).2, (backupFile_noop dfo o t path h).2,
    by rw [createBackupDir_noop dfo o bd h]⟩

/-- Witness for C1 at a concrete dry-run state and the benign
environment. -/
theorem c1_dry_run_never_mutates_witness :
    dfoNoop.config.Noop = true ∧
    (replaceFile dfoNoop baseOracle 0 ".vimrc" "vimrc").acts = [] ∧
    (backupFile dfoNoop baseOracle 0 ".vimrc").acts = [] ∧
    (createBackupDir dfoNoop baseOracle "/w/backups/dfo_backup_T0").2 = [] :=
  ⟨by decide,
    c1_dry_run_never_mutates dfoNoop baseOracle 0 ".vimrc" "vimrc" ".vimrc"
      "/w/backups/dfo_backup_T0" (by decide)⟩

/-- C10: with the noop flag set, replaceFile returns success for every
pair, every environment and every backup-flag value: no error path inside
replaceFile or the backupFile it calls is reachable before the dry-run
early returns. -/
theorem c10_dry_run_replace_ok (dfo : DfoState) (o : FsOracle) (t : Nat)
    (target src : String) (h : dfo.config.Noop = true) :
    (replaceFile dfo o t target src).res = GoResult.ok :=
  (replaceFile_noop dfo o t target src h).1

/-- Witness for C10: the dry-run success at a concrete input, in an
environment whose stat fails with a permission error. -/
theorem c10_dry_run_replace_ok_witness :
    ({ dfoNoop with config := { dfoNoop.config with Backup := true } } :
      DfoState).config.Noop = true ∧
    (replaceFile { dfoNoop with config := { dfoNoop.config with Backup := true } }
      oStatPerm 0 ".vimrc" "vimrc").res = GoResult.ok :=
  ⟨by decide,
    c10_dry_run_replace_ok
      { dfoNoop with config := { dfoNoop.config with Backup := true } }
      oStatPerm 0 ".vimrc" "vimrc" (by decide)⟩

/-- C3 (divergence witness): the inspector resolves the declared source by
joining it onto the repository directory unconditionally, while
replaceFile keeps an absolute declared source unchanged.  At the absolute
declared source of the claim the two resolutions differ, and a target
that is already a symlink to exactly that absolute source is still
reported as needing an update. -/
theorem c3_resolution_divergence :
    inspectResolveSource "/r" "/etc/skel/.bashrc" = "/r/etc/skel/.bashrc" ∧
    replaceResolveSource "/r" "/etc/skel/.bashrc" = "/etc/skel/.bashrc" ∧
    inspectResolveSource "/r" "/etc/skel/.bashrc" ≠
      replaceResolveSource "/r" "/etc/skel/.bashrc" ∧
    fileNeedsUpdating oAbsLink ".bashrc" "/etc/skel/.bashrc" cfgRun = (true, none) ∧
    linkState oAbsLink cfgRun.HomeDir cfgRun.RepoDir ".bashrc" "/etc/skel/.bashrc" =
      some LinkState.WrongSymlink := by
  decide

theorem string_append_left_ne_empty (s x : String) (h : s.data ≠ []) : s ++ x ≠ "" := by
  intro hc
  have hd := congrArg String.data hc
  rw [String.data_append] at hd
  exact h (List.append_eq_nil.mp hd).1

/-- C4 (amended): the backup directory path is computed at most once per
run, from the clock value read at the first call to getBackupDirName
(which main performs at startup when logging the backup location, before
any entry is processed), and it is never recomputed: a state that already
holds a name returns it unchanged, and after any call every later call,
at any later clock position, returns the same path and leaves the state
unchanged. -/
theorem c4_backup_dir_computed_once (dfo : DfoState) (o : FsOracle) (t u : Nat) :
    (dfo.backupDir ≠ "" → getBackupDirName dfo o t = (dfo.backupDir, dfo, t)) ∧
    getBackupDirName ((getBackupDirName dfo o t).2.1) o u =
      ((getBackupDirName dfo o t).1, (getBackupDirName dfo o t).2.1, u) := by
  constructor
  · intro h
    simp [getBackupDirName, h]
  · by_cases h : dfo.backupDir = ""
    · have hbd : filepathJoin dfo.config.WorkDir ("backups/dfo_backup_" ++ o.clock t) ≠ "" :=
        filepathJoin_ne_empty _ _
          (string_append_left_ne_empty _ _ (by decide))
      simp [getBackupDirName, h, hbd]
    · simp [getBackupDirName, h]

/-- Witness for C4 at a state that already memoised a name, and one that
computes it. -/
theorem c4_backup_dir_computed_once_witness :
    ((⟨cfgRun, "/w/backups/dfo_backup_X", []⟩ : DfoState).backupDir ≠ "" ∧
      getBackupDirName ⟨cfgRun, "/w/backups/dfo_backup_X", []⟩ baseOracle 3 =
        ("/w/backups/dfo_backup_X", ⟨cfgRun, "/w/backups/dfo_backup_X", []⟩, 3)) ∧
    getBackupDirName ((getBackupDirName dfoRun baseOracle 0).2.1) baseOracle 7 =
      ((getBackupDirName dfoRun baseOracle 0).1,
        (getBackupDirName dfoRun baseOracle 0).2.1, 7) :=
  ⟨⟨by decide,
      (c4_backup_dir_computed_once ⟨cfgRun, "/w/backups/dfo_backup_X", []⟩ baseOracle 3 7).1
        (by decide)⟩,
    (c4_backup_dir_computed_once dfoRun baseOracle 0 7).2⟩

/-- C4 (counterexample): in part_003 the timestamp is captured by the
startup debug-log call to getBackupDirName, not at the moment the first
entry requires a backup.  In this run the only entry is examined and
backed up strictly after startup, when the clock already reads T1, yet
the backup path embeds T0, the clock value of run start. -/
theorem c4_timestamp_from_startup :
    (runMain dfoOneFile oPlainFile).dfo.backupDir = "/w/backups/dfo_backup_T0" ∧
    FsAction.link "/h/f" "/w/backups/dfo_backup_T0/f" ∈ (runMain dfoOneFile oPlainFile).acts ∧
    oPlainFile.clock 0 = "T0" ∧ oPlainFile.clock 1 = "T1" ∧
    (runMain dfoOneFile oPlainFile).dfo.backupDir ≠
      filepathJoin "/w" ("backups/dfo_backup_" ++ oPlainFile.clock 1) := by
  decide

/-- C7 (divergence witness): when the initial stat of the content to back
up fails with a permission error, backupFile does not return that error:
it continues, creates the backup directory and the mirrored parents, and
then panics on the nil file info.  The claim expects the error to be
surfaced instead. -/
theorem c7_stat_error_not_surfaced :
    oStatPerm.stat "/h/.vimrc" = StatResult.err FsError.permission ∧
    (backupFile ⟨cfgRun, "", []⟩ oStatPerm 0 ".vimrc").res = GoResult.panicked ∧
    (backupFile ⟨cfgRun, "", []⟩ oStatPerm 0 ".vimrc").res ≠ GoResult.err FsError.permission ∧
    (backupFile ⟨cfgRun, "", []⟩ oStatPerm 0 ".vimrc").acts =
      [FsAction.mkdir "/w/backups/dfo_backup_T0",
        FsAction.mkdirAll "/w/backups/dfo_backup_T0"] := by
  decide

theorem replaceTail_acts (dfo1 : DfoState) (o : FsOracle) (t1 : Nat)
    (tp td src : String) (acts : List FsAction) :
    ∃ x, (replaceTail dfo1 o t1 tp td src acts).acts = acts ++ x := by
  unfold replaceTail
  cases o.mkdirAll td with
  | some e => exact ⟨[FsAction.mkdirAll td], rfl⟩
  | none =>
    by_cases h : dfo1.config.Noop = true
    · simp only [h, if_true]
      exact ⟨[FsAction.mkdirAll td], rfl⟩
    · simp only [eq_false_of_ne_true h, Bool.false_eq_true, if_false]
      cases o.symlink (replaceResolveSource dfo1.config.RepoDir src) tp with
      | some e =>
        exact ⟨[FsAction.mkdirAll td,
          FsAction.symlink (replaceResolveSource dfo1.config.RepoDir src) tp], rfl⟩
      | none =>
        exact ⟨[FsAction.mkdirAll td,
          FsAction.symlink (replaceResolveSource dfo1.config.RepoDir src) tp], rfl⟩

/-- C9 (amended): createBackupDir creates only the timestamped backup
directory itself, with os.Mkdir and no parents: success and the
already-exists condition both report success after the single mkdir call,
any other mkdir error (in particular not-exist for a missing parent) is
returned, and in dry-run mode nothing is attempted and success is
returned unconditionally.  The backups parent is instead created at
startup by initWorkDir through MkdirAll of the work directory and of its
backups subdirectory. -/
theorem c9_ensure_backup_dir (dfo : DfoState) (o : FsOracle) (bd : String) :
    (dfo.config.Noop = true → createBackupDir dfo o bd = (GoResult.ok, [])) ∧
    (dfo.config.Noop = false → o.mkdir bd = none →
      createBackupDir dfo o bd = (GoResult.ok, [FsAction.mkdir bd])) ∧
    (dfo.config.Noop = false → o.mkdir bd = some FsError.alreadyExists →
      createBackupDir dfo o bd = (GoResult.ok, [FsAction.mkdir bd])) ∧
    (dfo.config.Noop = false → ∀ e, o.mkdir bd = some e → goIsExist (some e) = false →
      createBackupDir dfo o bd = (GoResult.err e, [FsAction.mkdir bd])) ∧
    (o.mkdirAll dfo.config.WorkDir = none →
      o.mkdirAll (filepathJoin dfo.config.WorkDir "backups") = none →
      initWorkDirMkdirs dfo o = (GoResult.ok,
        [FsAction.mkdirAll dfo.config.WorkDir,
          FsAction.mkdirAll (filepathJoin dfo.config.WorkDir "backups")])) := by
  refine ⟨fun h => by simp [createBackupDir, h], fun hN hm => ?_, fun hN hm => ?_,
    fun hN e hm hge => ?_, fun h1 h2 => ?_⟩
  · simp [createBackupDir, hN, hm]
  · simp [createBackupDir, hN, hm, goIsExist]
  · simp [createBackupDir, hN, hm, hge]
  · simp [initWorkDirMkdirs, h1, h2]

/-- Witness for C9: the already-exists absorption and the startup creation
of the backups parent at a concrete input. -/
theorem c9_ensure_backup_dir_witness :
    (dfoRun.config.Noop = false ∧
      ({ baseOracle with mkdir := fun _ => some FsError.alreadyExists } :
        FsOracle).mkdir "/w/backups/dfo_backup_T0" = some FsError.alreadyExists ∧
      createBackupDir dfoRun { baseOracle with mkdir := fun _ => some FsError.alreadyExists }
        "/w/backups/dfo_backup_T0" =
        (GoResult.ok, [FsAction.mkdir "/w/backups/dfo_backup_T0"])) ∧
    initWorkDirMkdirs dfoRun baseOracle =
      (GoResult.ok, [FsAction.mkdirAll "/w", FsAction.mkdirAll "/w/backups"]) := by
  constructor
  · exact ⟨by decide, by decide,
      (c9_ensure_backup_dir dfoRun
        { baseOracle with mkdir := fun _ => some FsError.alreadyExists }
        "/w/backups/dfo_backup_T0").2.2.1 (by decide) (by decide)⟩
  · have h := (c9_ensure_backup_dir dfoRun baseOracle "/w/backups/dfo_backup_T0").2.2.2.2
      (by decide) (by decide)
    rw [h]
    decide

/-- C9 (counterexample): when the backups parent is absent, os.Mkdir of
the timestamped directory fails with not-exist; createBackupDir returns
that error and never creates or attempts the parent, refuting the claim
that ensuring the backup directory exists creates its backups parent when
absent. -/
theorem c9_missing_parent_fails :
    (createBackupDir dfoRun oMkdirNoParent "/w/backups/dfo_backup_T0").1 =
      GoResult.err FsError.notExist ∧
    (createBackupDir dfoRun oMkdirNoParent "/w/backups/dfo_backup_T0").2 =
      [FsAction.mkdir "/w/backups/dfo_backup_T0"] ∧
    FsAction.mkdir "/w/backups" ∉
      (createBackupDir dfoRun oMkdirNoParent "/w/backups/dfo_backup_T0").2 ∧
    FsAction.mkdirAll "/w/backups" ∉
      (createBackupDir dfoRun oMkdirNoParent "/w/backups/dfo_backup_T0").2 := by
  decide

/-- C6: with backups enabled and dry-run off, a failed backup propagates
with no removal performed, and on backup success the whole backup trace
precedes the recursive removal (os.RemoveAll) of the target in the action
log; a removal error other than not-exist is returned as fatal, while a
not-exist removal error is absorbed and the run continues into exactly
the same continuation as a successful removal. -/
theorem c6_backup_before_removal (dfo : DfoState) (o : FsOracle) (t : Nat)
    (target src : String)
    (hN : dfo.config.Noop = false) (hB : dfo.config.Backup = true) :
    ((backupFile dfo o t target).res ≠ GoResult.ok →
      replaceFile dfo o t target src = backupFile dfo o t target) ∧
    ((backupFile dfo o t target).res = GoResult.ok →
      (∃ rest, (replaceFile dfo o t target src).acts =
        (backupFile dfo o t target).acts ++
          FsAction.removeAll (filepathJoin dfo.config.HomeDir target) :: rest) ∧
      (∀ e, o.removeAll (filepathJoin dfo.config.HomeDir target) = some e →
        e ≠ FsError.notExist →
        replaceFile dfo o t target src =
          ⟨GoResult.err e, (backupFile dfo o t target).dfo, (backupFile dfo o t target).time,
            (backupFile dfo o t target).acts ++
              [FsAction.removeAll (filepathJoin dfo.config.HomeDir target)]⟩) ∧
      ((o.removeAll (filepathJoin dfo.config.HomeDir target) = some FsError.notExist ∨
          o.removeAll (filepathJoin dfo.config.HomeDir target) = none) →
        replaceFile dfo o t target src =
          replaceTail (backupFile dfo o t target).dfo o (backupFile dfo o t target).time
            (filepathJoin dfo.config.HomeDir target)
            (filepathDir (filepathJoin dfo.config.HomeDir target)) src
            ((backupFile dfo o t target).acts ++
              [FsAction.removeAll (filepathJoin dfo.config.HomeDir target)]))) := by
  constructor
  · intro hbad
    simp only [replaceFile, hB, if_true]
    rw [if_neg hbad]
  · intro hok
    simp only [replaceFile, hB, if_true, hok, if_pos rfl, hN, Bool.false_eq_true, if_false]
    refine ⟨?_, ?_, ?_⟩
    · cases hr : o.removeAll (filepathJoin dfo.config.HomeDir target) with
      | some e =>
        cases e with
        | notExist =>
          obtain ⟨x, hx⟩ := replaceTail_acts (backupFile dfo o t target).dfo o
            (backupFile dfo o t target).time (filepathJoin dfo.config.HomeDir target)
            (filepathDir (filepathJoin dfo.config.HomeDir target)) src
            ((backupFile dfo o t target).acts ++
              [FsAction.removeAll (filepathJoin dfo.config.HomeDir target)])
          exact ⟨x, by rw [hx, List.append_assoc]; rfl⟩
        | alreadyExists => exact ⟨[], by simp⟩
        | permission => exact ⟨[], by simp⟩
        | other code => exact ⟨[], by simp⟩
      | none =>
        obtain ⟨x, hx⟩ := replaceTail_acts (backupFile dfo o t target).dfo o
          (backupFile dfo o t target).time (filepathJoin dfo.config.HomeDir target)
          (filepathDir (filepathJoin dfo.config.HomeDir target)) src
          ((backupFile dfo o t target).acts ++
            [FsAction.removeAll (filepathJoin dfo.config.HomeDir target)])
        exact ⟨x, by rw [hx, List.append_assoc]; rfl⟩
    · intro e hr hne
      rw [hr]
      cases e with
      | notExist => exact absurd rfl hne
      | alreadyExists => rfl
      | permission => rfl
      | other code => rfl
    · intro hr
      rcases hr with hr | hr <;> rw [hr]

/-- Witness for C6 at a concrete run: the backup succeeds and the removal
of the target follows the whole backup trace. -/
theorem c6_backup_before_removal_witness :
    dfoOneFile.config.Noop = false ∧ dfoOneFile.config.Backup = true ∧
    (backupFile dfoOneFile oPlainFile 1 "f").res = GoResult.ok ∧
    (∃ rest, (replaceFile dfoOneFile oPlainFile 1 "f" "s").acts =
      (backupFile dfoOneFile oPlainFile 1 "f").acts ++
        FsAction.removeAll (filepathJoin dfoOneFile.config.HomeDir "f") :: rest) :=
  ⟨by decide, by decide, by decide,
    ((c6_backup_before_removal dfoOneFile oPlainFile 1 "f" "s" (by decide) (by decide)).2
      (by decide)).1⟩

mutual

theorem copyDirTree_eq : ∀ t : FsTree, copyDirTree t = t
  | FsTree.file i => by simp [copyDirTree]
  | FsTree.dir p es => by simp [copyDirTree, copyEntries_eq es]

theorem copyEntries_eq : ∀ es : List (String × FsTree), copyEntries es = es
  | [] => by simp [copyEntries]
  | (n, FsTree.file i) :: rest => by simp [copyEntries, copyEntries_eq rest]
  | (n, FsTree.dir p es) :: rest => by
    simp [copyEntries, copyDirTree_eq (FsTree.dir p es), copyEntries_eq rest]

end

/-- C5: backing up a directory replicates the whole subtree: every file
reachable in the source directory is present at the mirrored path of the
replica with the same inode (a hard link to the original, not a byte
copy), and every subdirectory is present with the original directory's
permission bits and its entries replicated by the same loop. -/
theorem c5_copy_dir_preserves (perm : Nat) (es : List (String × FsTree)) (p : List String) :
    (∀ i, lookupPath (FsTree.dir perm es) p = some (FsTree.file i) →
      lookupPath (copyDirTree (FsTree.dir perm es)) p = some (FsTree.file i)) ∧
    (∀ q fs, lookupPath (FsTree.dir perm es) p = some (FsTree.dir q fs) →
      lookupPath (copyDirTree (FsTree.dir perm es)) p =
        some (FsTree.dir q (copyEntries fs))) := by
  constructor
  · intro i h
    rw [copyDirTree_eq]
    exact h
  · intro q fs h
    rw [copyDirTree_eq, copyEntries_eq]
    exact h

/-- Witness for C5: a file nested two levels deep keeps its inode in the
replica. -/
theorem c5_copy_dir_preserves_witness :
    lookupPath (FsTree.dir 493 [("sub", FsTree.dir 448 [("conf", FsTree.file 7)])])
      ["sub", "conf"] = some (FsTree.file 7) ∧
    lookupPath (copyDirTree
      (FsTree.dir 493 [("sub", FsTree.dir 448 [("conf", FsTree.file 7)])]))
      ["sub", "conf"] = some (FsTree.file 7) :=
  ⟨rfl, (c5_copy_dir_preserves 493 [("sub", FsTree.dir 448 [("conf", FsTree.file 7)])]
    ["sub", "conf"]).1 7 rfl⟩

theorem examinedTargets_append (a b : List FsAction) :
    examinedTargets (a ++ b) = examinedTargets a ++ examinedTargets b := by
  induction a with
  | nil => rfl
  | cons x rest ih =>
    cases x <;> simp [examinedTargets, ih]

theorem createBackupDir_no_examine (dfo : DfoState) (o : FsOracle) (bd : String) :
    examinedTargets (createBackupDir dfo o bd).2 = [] := by
  unfold createBackupDir
  split
  · rfl
  · cases o.mkdir bd with
    | none => rfl
    | some e => cases e <;> rfl

theorem replaceTail_no_examine (dfo1 : DfoState) (o : FsOracle) (t1 : Nat)
    (tp td src : String) (acts : List FsAction)
    (h : examinedTargets acts = []) :
    examinedTargets (replaceTail dfo1 o t1 tp td src acts).acts = [] := by
  unfold replaceTail
  cases o.mkdirAll td with
  | some e => simp [examinedTargets_append, h, examinedTargets]
  | none =>
    by_cases hn : dfo1.config.Noop = true
    · simp [hn, examinedTargets_append, h, examinedTargets]
    · simp only [eq_false_of_ne_true hn, Bool.false_eq_true, if_false]
      cases o.symlink (replaceResolveSource dfo1.config.RepoDir src) tp <;>
        simp [examinedTargets_append, h, examinedTargets]

theorem backupFile_no_examine (dfo : DfoState) (o : FsOracle) (t : Nat) (path : String) :
    examinedTargets (backupFile dfo o t path).acts = [] := by
  have hC := createBackupDir_no_examine
    ((getBackupDirName ((getBackupDirName dfo o t).2.1) o
      ((getBackupDirName dfo o t).2.2)).2.1) o
    ((getBackupDirName ((getBackupDirName dfo o t).2.1) o ((getBackupDirName dfo o t).2.2)).1)
  simp only [backupFile]
  cases hs : o.stat (filepathJoin dfo.config.HomeDir path) with
  | ok isDir =>
    repeat' split
    all_goals simp_all [examinedTargets_append, examinedTargets]
  | err e =>
    cases e with
    | notExist => rfl
    | alreadyExists =>
      repeat' split
      all_goals simp_all [examinedTargets_append, examinedTargets]
    | permission =>
      repeat' split
      all_goals simp_all [examinedTargets_append, examinedTargets]
    | other code =>
      repeat' split
      all_goals simp_all [examinedTargets_append, examinedTargets]

theorem replaceFile_no_examine (dfo : DfoState) (o : FsOracle) (t : Nat)
    (target src : String) :
    examinedTargets (replaceFile dfo o t target src).acts = [] := by
  have hB := backupFile_no_examine dfo o t target
  simp only [replaceFile]
  by_cases hBk : dfo.config.Backup = true
  · simp only [hBk, if_true]
    split
    · split
      · exact hB
      · cases o.removeAll (filepathJoin dfo.config.HomeDir target) with
        | some e =>
          cases e with
          | notExist =>
            exact replaceTail_no_examine _ _ _ _ _ _ _
              (by simp [examinedTargets_append, hB, examinedTargets])
          | alreadyExists => simp [examinedTargets_append, hB, examinedTargets]
          | permission => simp [examinedTargets_append, hB, examinedTargets]
          | other code => simp [examinedTargets_append, hB, examinedTargets]
        | none =>
          exact replaceTail_no_examine _ _ _ _ _ _ _
            (by simp [examinedTargets_append, hB, examinedTargets])
    · exact hB
  · simp only [eq_false_of_ne_true hBk, Bool.false_eq_true, if_false]
    split
    · split
      · rfl
      · cases o.removeAll (filepathJoin dfo.config.HomeDir target) with
        | some e =>
          cases e with
          | notExist => exact replaceTail_no_examine _ _ _ _ _ _ _ rfl
          | alreadyExists => rfl
          | permission => rfl
          | other code => rfl
        | none => exact replaceTail_no_examine _ _ _ _ _ _ _ rfl
    · rfl

/-- C8 (amended): the main loop handles the declared pairs one at a time,
strictly in the order of the in-memory dotfiles list (the inspected
targets form a take-style front segment of that list, shorter only when a
fatal error aborts the loop).  The list itself, however, is built by one
range over the yaml map, whose order Go leaves unspecified, so it need
not be the declaration's insertion order. -/
theorem c8_processing_order (o : FsOracle) (ds : List DotfileDef) (dfo : DfoState) (t : Nat) :
    ∃ n, examinedTargets (processDotfiles o dfo t ds).acts =
      (ds.map DotfileDef.dst).take n ∧ n ≤ ds.length := by
  induction ds generalizing dfo t with
  | nil => exact ⟨0, rfl, Nat.zero_le 0⟩
  | cons f rest ih =>
    simp only [processDotfiles]
    cases hu : (fileNeedsUpdating o f.dst f.src dfo.config).2 with
    | some e =>
      refine ⟨1, ?_, by simp⟩
      simp [examinedTargets]
    | none =>
      by_cases hup : (fileNeedsUpdating o f.dst f.src dfo.config).1 = true
      · simp only [hup, if_true]
        cases hr : (replaceFile dfo o t f.dst f.src).res with
        | ok =>
          obtain ⟨n, hn, hlen⟩ := ih (replaceFile dfo o t f.dst f.src).dfo
            (replaceFile dfo o t f.dst f.src).time
          refine ⟨n + 1, ?_, by simpa using Nat.succ_le_succ hlen⟩
          simp only [examinedTargets, List.map_cons, List.take_succ_cons, List.append_eq]
          rw [examinedTargets_append, replaceFile_no_examine, List.nil_append, hn]
        | err e =>
          refine ⟨1, ?_, by simp⟩
          simp [examinedTargets, examinedTargets_append, replaceFile_no_examine]
        | panicked =>
          refine ⟨1, ?_, by simp⟩
          simp [examinedTargets, examinedTargets_append, replaceFile_no_examine]
      · simp only [eq_false_of_ne_true hup, Bool.false_eq_true, if_false]
        obtain ⟨n, hn, hlen⟩ := ih dfo t
        refine ⟨n + 1, ?_, by simpa using Nat.succ_le_succ hlen⟩
        simp only [examinedTargets, List.map_cons, List.take_succ_cons]
        rw [hn]

/-- C8 (counterexample): the dotfiles list is built by one range over the
yaml target-to-source map, and Go map iteration order is unspecified: the
swapped enumeration is a valid iteration of the declared mapping, yet the
loop then processes b before a, not the declaration order a then b, so
the processing order is not the insertion order and two runs over the
same declaration may process the pairs in different orders. -/
theorem c8_map_iteration_counterexample :
    validMapIteration yamlPairs yamlPairsSwapped ∧
    loadDotfiles yamlPairsSwapped ≠ loadDotfiles yamlPairs ∧
    examinedTargets (processDotfiles baseOracle dfoSwapped 0 dfoSwapped.dotfiles).acts =
      ["b", "a"] ∧
    (loadDotfiles yamlPairs).map DotfileDef.dst = ["a", "b"] := by
  refine ⟨?_, by decide, by decide, by decide⟩
  exact List.Perm.swap _ _ _
